import Mathlib

/-!
Verification development for the firma repository (src/lib/src/offline/dice.rs,
src/lib/src/offline/print.rs, src/lib/src/lib.rs).

Conventions of the embedding:
* Machine integers (u8, u32, u64, i64) are modelled as Nat / Int with explicit
  reduction modulo 2^w where the source performs unchecked arithmetic.  Unchecked
  overflow follows the release-profile semantics of Rust (two's-complement wrap);
  where a debug build would abort instead, a comment says so.
* Fallible code returns an Outcome: `ok` models a normal return, `error` models
  an Err value carried through the Result type (the message is the source text),
  and `abort` models a process abort (an assert! failure, an out-of-bounds index,
  a remainder by zero, or a loop that cannot return normally).
* BigUint is modelled as Nat.  Loops are embedded as structural recursions; the
  two source loops that lack a structural bound carry an explicit fuel argument,
  chosen so that fuel exhaustion is unreachable whenever the source loop
  terminates (the surrounding lemmas prove this on the claimed domains).
* External collaborators (the bitcoin crate, repository code that is not under
  src/) are embedded from their documented fixed behaviour where a claim depends
  on it (the script-shape predicates), and otherwise stood in by deterministic
  computable functions, marked "Modelled from the spec:".
-/

/-- Result of running a fallible piece of the program: a normal return, an Err
value with its message, or a process abort (panic). -/
inductive Outcome (α : Type) where
  | ok (val : α)
  | error (msg : String)
  | abort
deriving DecidableEq, Repr

def Outcome.map {α β : Type} (f : α → β) : Outcome α → Outcome β
  | .ok a => .ok (f a)
  | .error e => .error e
  | .abort => .abort

/-- Projection used by statements: the report carried by an ok outcome. -/
def Outcome.okVal {α : Type} : Outcome α → Option α
  | .ok a => some a
  | _ => none

/-- 2^64, the modulus of u64 arithmetic. -/
def u64Mod : Nat := 2 ^ 64

/-- Wrap an integer into the i64 range, as unchecked i64 arithmetic and the
u64 -> i64 `as` cast do. -/
def wrapI64 (x : Int) : Int := (x + 2 ^ 63) % 2 ^ 64 - 2 ^ 63

/-- Wrapping u64 sum, as `iter().sum::<u64>()` computes it in a release build. -/
def sumU64 (l : List Nat) : Nat := l.foldl (fun a b => (a + b) % u64Mod) 0

/-! ## dice.rs -/

/-- enum Base: number of faces of the die (dice.rs lines 40-48). -/
inductive Base where
  | _2
  | _4
  | _6
  | _8
  | _12
  | _20
deriving DecidableEq, Repr

/-- The numeric discriminant of Base (`self.faces as u32`). -/
def Base.toNat : Base → Nat
  | ._2 => 2
  | ._4 => 4
  | ._6 => 6
  | ._8 => 8
  | ._12 => 12
  | ._20 => 20

/-- enum Bits: number of bits of entropy (dice.rs lines 33-38). -/
inductive Bits where
  | _128
  | _192
  | _256
deriving DecidableEq, Repr

/-- From<Bits> for BigUint (dice.rs lines 126-135): one << bits. -/
def Bits.toBigUint : Bits → Nat
  | ._128 => 2 ^ 128
  | ._192 => 2 ^ 192
  | ._256 => 2 ^ 256

/-- The text `&format!("{:?}", self.bits)[1..]` produces: the derived Debug
rendering of the variant ("_128") with the leading underscore sliced off. -/
def Bits.debugTail : Bits → String
  | ._128 => "128"
  | ._192 => "192"
  | ._256 => "256"

/-- struct DiceOptions (dice.rs lines 11-31). -/
structure DiceOptions where
  faces : Base
  bits : Bits
  key_name : String
  launches : List Nat
  qr_version : Int
deriving DecidableEq, Repr

/-- Loop body of required_dice_launches (dice.rs lines 97-103):
count += 1; acc *= faces; if acc > max return count - 1.  The fuel argument
makes the recursion structural; required_dice_launches supplies max + 2, which
the lemmas show is never exhausted when faces >= 2. -/
def requiredLoop (faces max : Nat) : Nat → Nat → Nat → Option Nat
  | 0, _, _ => none
  | fuel + 1, count, acc =>
    let count2 := count + 1
    let acc2 := acc * faces
    if max < acc2 then some (count2 - 1) else requiredLoop faces max fuel count2 acc2

/-- fn required_dice_launches (dice.rs lines 93-104).  count is a u32 in the
source; on the claimed domain (max = 2^bits, bits <= 256) it stays below 258,
far from wrapping, so it is carried as a Nat. -/
def required_dice_launches (faces max : Nat) : Option Nat :=
  requiredLoop faces max (max + 2) 0 1

/-- One fold step of multiply_dice_launches (dice.rs lines 86-90):
sum *= base; sum += i - 1.  The subtraction i - 1 is on u32: launch value 0
would abort with an underflow panic, modelled by none. -/
def mdlStep (base : Nat) (sum : Option Nat) (i : Nat) : Option Nat :=
  match sum with
  | none => none
  | some s => if i = 0 then none else some (s * base + (i - 1))

/-- fn multiply_dice_launches (dice.rs lines 84-91).  launches[0] on an empty
vector aborts (index out of bounds), and launches[0] - 1 aborts on a zero
launch; both abort cases are modelled by none. -/
def multiply_dice_launches (launches : List Nat) (base : Nat) : Option Nat :=
  match launches with
  | [] => none
  | v :: rest => if v = 0 then none else rest.foldl (mdlStep base) (some (v - 1))

/-- Message of the launch-count check (dice.rs lines 58-64). -/
def mismatchMsg (count : Nat) (bitsStr : String) (len : Nat) : String :=
  s!"Need {count} dice launches (-l) to achieve {bitsStr} bits of entropy (provided: {len})"

/-- Message of the digit-range check (dice.rs line 68). -/
def rangeMsg (faces : Nat) : String :=
  s!"Numbers must be from 1 to {faces} included"

/-- DiceOptions::validate (dice.rs lines 51-72).  The abort branch covers the
case where required_dice_launches would not return (faces < 2); it is
unreachable for the Base variants. -/
def DiceOptions.validate (o : DiceOptions) : Outcome Unit :=
  let max := o.bits.toBigUint
  let faces := o.faces.toNat
  match required_dice_launches faces max with
  | none => .abort
  | some count =>
    if o.launches.length ≠ count then
      .error (mismatchMsg count o.bits.debugTail o.launches.length)
    else if o.launches.any (fun n => n == 0 || faces < n) then
      .error (rangeMsg faces)
    else .ok ()

/-- fn roll (dice.rs lines 75-82) up to the dice-encoding step: validate, then
the multiply_dice_launches call inside calculate_key.  The subsequent key
derivation and persistence (PrivateMasterKey::new, save_keys) are external
collaborators and are not part of the encoding step the claims are about. -/
def rollEncodingStep (o : DiceOptions) : Outcome Nat :=
  match o.validate with
  | .error e => .error e
  | .abort => .abort
  | .ok _ =>
    match multiply_dice_launches o.launches o.faces.toNat with
    | none => .abort
    | some n => .ok n

/-! ## Bitcoin data model used by print.rs -/

/-- bitcoin::OutPoint: a prior transaction id (32-byte hash, modelled as a Nat)
plus an output index. -/
structure OutPoint where
  txid : Nat
  vout : Nat
deriving DecidableEq, Repr

/-- Display of an OutPoint, "txid:vout" (used by to_string on line 64). -/
def OutPoint.render (o : OutPoint) : String :=
  let t := o.txid
  let v := o.vout
  s!"{t}:{v}"

/-- bitcoin::TxOut: a value in satoshi (u64) plus a script (byte list). -/
structure TxOut where
  value : Nat
  script_pubkey : List Nat
deriving DecidableEq, Repr

/-- bitcoin::TxIn, reduced to the field print.rs reads. -/
structure TxIn where
  previous_output : OutPoint
deriving DecidableEq, Repr

/-- bitcoin::Transaction, reduced to the fields print.rs reads. -/
structure Transaction where
  input : List TxIn
  output : List TxOut
deriving DecidableEq, Repr

/-- Cantor pairing, used to build the content codes below. -/
def pairCode (a b : Nat) : Nat := (a + b) * (a + b + 1) / 2 + b

/-- A content code for a list of numbers, injective on byte lists (every
element below 256). -/
def listCode (l : List Nat) : Nat := l.foldl (fun acc b => acc * 257 + (b + 1)) 1

def TxOut.code (o : TxOut) : Nat := pairCode o.value (listCode o.script_pubkey)

def TxIn.code (i : TxIn) : Nat := pairCode i.previous_output.txid i.previous_output.vout

/-- Transaction::txid of the bitcoin crate: the double SHA256 of the consensus
serialization.  Modelled as a deterministic content code of the transaction;
the claims only compare it for equality against stored txid fields. -/
def Transaction.txid (t : Transaction) : Nat :=
  pairCode (listCode (t.input.map TxIn.code)) (listCode (t.output.map TxOut.code))

/-- Transaction::get_weight of the bitcoin crate (line 147): the consensus
weight.  Modelled from the spec: an external pure size metric, stood in by a
deterministic formula over the shape of the transaction. -/
def Transaction.get_weight (t : Transaction) : Nat :=
  let inW := t.input.foldl (fun a _ => a + 164) 0
  let outW := t.output.foldl (fun a o => a + 36 + 4 * o.script_pubkey.length) 0
  16 + inW + outW

/-- One entry of the BTreeMap<PublicKey, (Fingerprint, DerivationPath)> in the
PSBT metadata (print.rs line 12).  The derivation path is carried by its Debug
rendering, which is the only use print.rs makes of it. -/
structure KeyEntry where
  pubkey : Nat
  fingerprint : Nat
  path : String
deriving DecidableEq, Repr

/-- One PSBT input: the two alternative embeddings of the spent output plus the
key-path metadata. -/
structure PsbtInput where
  non_witness_utxo : Option Transaction
  witness_utxo : Option TxOut
  hd_keypaths : List KeyEntry
deriving DecidableEq, Repr

/-- One PSBT output: the key-path metadata print.rs reads. -/
structure PsbtOutput where
  hd_keypaths : List KeyEntry
deriving DecidableEq, Repr

/-- bitcoin PartiallySignedTransaction, reduced to the fields print.rs reads
(psbt.global.unsigned_tx is flattened into unsigned_tx). -/
structure PSBT where
  unsigned_tx : Transaction
  inputs : List PsbtInput
  outputs : List PsbtOutput
deriving DecidableEq, Repr

/-- Modelled from the spec: WalletRecord = {name, set of fingerprints}.  The
struct WalletJson lives in common/json.rs, which is not under src/; print.rs
reads exactly these two fields. -/
structure WalletJson where
  name : String
  fingerprints : List Nat
deriving DecidableEq, Repr

/-- bitcoin::Network, as far as the report renders it. -/
inductive Network where
  | bitcoin
  | testnet
  | regtest
deriving DecidableEq, Repr

def networkTag : Network → String
  | .bitcoin => "bc"
  | .testnet => "tb"
  | .regtest => "bcrt"

/-- Modelled from the spec: one display row of the report (struct TxInOut lives
in common/json.rs, not under src/); fields taken from its uses in pretty_print. -/
structure TxInOut where
  outpoint : Option String
  address : Option String
  value : String
  path : String
  wallet : String
deriving DecidableEq, Repr

/-- Modelled from the spec: the size metrics of the report. -/
structure Size where
  estimated : Nat
  unsigned : Nat
  psbt : Nat
deriving DecidableEq, Repr

/-- Modelled from the spec: the fee metrics of the report.  rate is the f64
quotient fee / estimated vbytes in the source; a float is not embedded, the
field carries the operand pair, which determines it. -/
structure Fee where
  absolute : Nat
  absolute_fmt : String
  rate : Nat × Nat
deriving DecidableEq, Repr

/-- Modelled from the spec: the Report aggregate (struct PsbtPrettyPrint lives
in common/json.rs, not under src/); fields taken from its uses in pretty_print. -/
structure PsbtPrettyPrint where
  inputs : List TxInOut
  outputs : List TxInOut
  balances : String
  info : List String
  size : Size
  fee : Fee
deriving DecidableEq, Repr

/-! ## Script-shape predicates of the bitcoin crate

These are the fixed byte-shape tests Script::is_p2pk, is_p2pkh, is_p2sh,
is_v0_p2wpkh, is_v0_p2wsh and is_witness_program of the bitcoin crate
(rust-bitcoin 0.25), embedded byte for byte; print.rs depends on their exact
behaviour through SCRIPT_TYPE_FN and Address::from_script. -/

def is_p2pk (s : List Nat) : Bool :=
  match s.length with
  | 67 => s[0]? == some 0x41 && s[66]? == some 0xac
  | 35 => s[0]? == some 0x21 && s[34]? == some 0xac
  | _ => false

def is_p2pkh (s : List Nat) : Bool :=
  s.length == 25 && s[0]? == some 0x76 && s[1]? == some 0xa9 && s[2]? == some 0x14
    && s[23]? == some 0x88 && s[24]? == some 0xac

def is_p2sh (s : List Nat) : Bool :=
  s.length == 23 && s[0]? == some 0xa9 && s[1]? == some 0x14 && s[22]? == some 0x87

def is_witness_program (s : List Nat) : Bool :=
  decide (4 ≤ s.length) && decide (s.length ≤ 42)
    && (s[0]? == some 0x00
      || (match s[0]? with
          | some b => decide (0x51 ≤ b) && decide (b ≤ 0x60)
          | none => false))
    && s[1]? == some (s.length - 2)

def is_v0_p2wpkh (s : List Nat) : Bool :=
  s.length == 22 && is_witness_program s && s[0]? == some 0x00 && s[1]? == some 0x14

def is_v0_p2wsh (s : List Nat) : Bool :=
  s.length == 34 && is_witness_program s && s[0]? == some 0x00 && s[1]? == some 0x20

/-- const SCRIPT_TYPE_FN (print.rs lines 177-183): the fixed priority list of
script classifiers. -/
def SCRIPT_TYPE_FN : List (List Nat → Bool) :=
  [is_p2pk, is_p2pkh, is_p2sh, is_v0_p2wpkh, is_v0_p2wsh]

/-- fn script_type (print.rs lines 184-186): position of the first matching
classifier, None when no shape matches. -/
def script_type (s : List Nat) : Option Nat :=
  SCRIPT_TYPE_FN.findIdx? (fun f => f s)

/-- Address::from_script of the bitcoin crate (print.rs line 77): an address
exists exactly for p2pkh, p2sh and witness-program scripts.  The address text
itself is an external encoding (base58check / bech32); it is stood in by a
deterministic rendering, since the claims only depend on its presence and on
its being a function of script and network. -/
def address_from_script (s : List Nat) (network : Network) : Option String :=
  if is_p2pkh s || is_p2sh s || is_witness_program s then
    some (networkTag network ++ "#" ++ toString (listCode s))
  else none

/-! ## print.rs -/

/-- Loop body of biggest_dividing_pow (print.rs lines 168-174) with u64
wrapping of start and u8 wrapping of count.  In a release build the loop on
input 0 keeps dividing until start wraps to 0 at the 64th step and the
remainder by zero aborts; in a debug build it aborts earlier, at the
multiplication overflow.  Both abort behaviours are modelled by none, and the
fixed fuel 100 is never exhausted (start reaches 0 after 63 multiplications). -/
def bdpGo (num : Nat) : Nat → Nat → Nat → Option Nat
  | 0, _, _ => none
  | fuel + 1, start, count =>
    if start = 0 then none
    else if num % start ≠ 0 then some count
    else bdpGo num fuel (start * 10 % u64Mod) ((count + 1) % 256)

/-- fn biggest_dividing_pow (print.rs lines 165-175). -/
def biggest_dividing_pow (num : Nat) : Option Nat :=
  bdpGo num 100 10 0

/-- Display of bitcoin Amount (Amount::from_sat(x).to_string()).  Modelled from
the spec: an external pure formatter; stood in by a deterministic rendering of
the satoshi value. -/
def amountFmt (sats : Nat) : String :=
  s!"{sats} sat"

/-- Display of bitcoin SignedAmount, same stand-in. -/
def signedAmountFmt (sats : Int) : String :=
  s!"{sats} sat"

/-- fn which_wallet (print.rs lines 198-211): the names, in supplied wallet
order, of every wallet whose fingerprint set contains all fingerprints of a
non-empty key-path map. -/
def which_wallet (hd_keypaths : List KeyEntry) (wallets : List WalletJson) : List String :=
  (wallets.filter (fun w =>
      !hd_keypaths.isEmpty
        && hd_keypaths.all (fun e => w.fingerprints.contains e.fingerprint))).map
    (fun w => w.name)

/-- Vec::dedup of Rust: remove consecutive duplicates. -/
def dedupConsec : List String → List String
  | [] => []
  | [a] => [a]
  | a :: b :: rest =>
    if a = b then dedupConsec (b :: rest) else a :: dedupConsec (b :: rest)

def insertSorted (a : String) : List String → List String
  | [] => [a]
  | b :: rest => if decide (a ≤ b) then a :: b :: rest else b :: insertSorted a rest

/-- Vec::sort of Rust on strings, modelled by insertion sort: the claims only
read the sorted output, which any sorting algorithm determines. -/
def sortStrings (l : List String) : List String := l.foldr insertSorted []

/-- fn derivation_paths (print.rs lines 188-196): sort the Debug renderings of
the paths, drop duplicates, join with ", ". -/
def derivation_paths (hd_keypaths : List KeyEntry) : String :=
  let vec := hd_keypaths.map (fun e => e.path)
  String.intercalate ", " (dedupConsec (sortStrings vec))

/-- One entry update of the balances HashMap:
`*balances.entry(wallet).or_insert(0) += d` with wrapping i64 arithmetic.  The
map contents are carried as an insertion-ordered association list; the
iteration order used at render time is supplied separately, since the source
iterates a std HashMap whose order is not a function of its contents. -/
def addBalance (m : List (String × Int)) (k : String) (d : Int) : List (String × Int) :=
  if m.any (fun p => p.1 == k) then
    m.map (fun p => if p.1 == k then (p.1, wrapI64 (p.2 + d)) else p)
  else m ++ [(k, wrapI64 (0 + d))]

/-- The input resolution loop of pretty_print (print.rs lines 42-56), one
previous output per PSBT input, in input order.  The txid comparison is the
assert_eq! on line 46: a mismatch aborts the process, it does not return an
Err.  The two ok_or_else calls return the Err messages of the source. -/
def resolveLoop (vouts : List OutPoint) : List PsbtInput → Nat → Outcome (List TxOut)
  | [], _ => .ok []
  | pin :: rest, i =>
    match pin.non_witness_utxo, pin.witness_utxo with
    | some prev_tx, none =>
      match vouts[i]? with
      | none => .error "can't find outpoint"
      | some outpoint =>
        if prev_tx.txid ≠ outpoint.txid then .abort
        else
          match prev_tx.output[outpoint.vout]? with
          | none => .error "can't find txout"
          | some o => Outcome.map (fun tl => o :: tl) (resolveLoop vouts rest (i + 1))
    | none, some val => Outcome.map (fun tl => val :: tl) (resolveLoop vouts rest (i + 1))
    | _, _ => .error "witness_utxo and non_witness_utxo are both None or both Some"

/-- The input display loop of pretty_print (print.rs lines 60-74): build one
TxInOut row per transaction input and subtract each attributed value from the
per-wallet balance.  Indexing psbt.inputs[i] or previous_outputs[i] out of
bounds aborts. -/
def inputsLoop (wallets : List WalletJson) (pins : List PsbtInput) (prevs : List TxOut) :
    List TxIn → Nat → List (String × Int) → Outcome (List TxInOut × List (String × Int))
  | [], _, bal => .ok ([], bal)
  | txin :: rest, i, bal =>
    match pins[i]?, prevs[i]? with
    | some pin, some prev =>
      let keypaths := pin.hd_keypaths
      let wnames := which_wallet keypaths wallets
      let row : TxInOut :=
        { outpoint := some txin.previous_output.render
          address := none
          value := amountFmt prev.value
          path := derivation_paths keypaths
          wallet := String.intercalate ", " wnames }
      let cast := wrapI64 (prev.value : Int)
      let bal2 := wnames.foldl (fun m w => addBalance m w (-cast)) bal
      match inputsLoop wallets pins prevs rest (i + 1) bal2 with
      | .ok (rows, bal3) => .ok (row :: rows, bal3)
      | .error e => .error e
      | .abort => .abort
    | _, _ => .abort

/-- The output display loop of pretty_print (print.rs lines 76-93): one TxInOut
row per transaction output; an output script without an address form is the
Err "non default script"; each attributed value is added to the per-wallet
balance.  Note the source joins wallet names with " ," here (it is ", " for
inputs). -/
def outputsLoop (network : Network) (wallets : List WalletJson) (pouts : List PsbtOutput) :
    List TxOut → Nat → List (String × Int) → Outcome (List TxInOut × List (String × Int))
  | [], _, bal => .ok ([], bal)
  | output :: rest, i, bal =>
    match address_from_script output.script_pubkey network with
    | none => .error "non default script"
    | some addr =>
      match pouts[i]? with
      | none => .abort
      | some pout =>
        let keypaths := pout.hd_keypaths
        let wnames := which_wallet keypaths wallets
        let row : TxInOut :=
          { outpoint := none
            address := some addr
            value := amountFmt output.value
            path := derivation_paths keypaths
            wallet := String.intercalate " ," wnames }
        let cast := wrapI64 (output.value : Int)
        let bal2 := wnames.foldl (fun m w => addBalance m w cast) bal
        match outputsLoop network wallets pouts rest (i + 1) bal2 with
        | .ok (rows, bal3) => .ok (row :: rows, bal3)
        | .error e => .error e
        | .abort => .abort

/-- The Vec<u8> of biggest_dividing_pow values (print.rs lines 111-115); an
abort inside any element aborts the collection. -/
def collectU8 : List TxOut → Option (List Nat)
  | [] => some []
  | o :: rest =>
    match biggest_dividing_pow o.value, collectU8 rest with
    | some d, some ds => some (d :: ds)
    | _, _ => none

def scriptTypesMsg : String :=
  "Privacy: outputs have different script types https://en.bitcoin.it/wiki/Privacy#Sending_to_a_different_script_type"

def roundNumbersMsg : String :=
  "Privacy: outputs have different precision https://en.bitcoin.it/wiki/Privacy#Round_numbers"

def unnecessaryInputMsg : String :=
  "Privacy: smallest output is smaller then smallest input https://en.bitcoin.it/wiki/Privacy#Unnecessary_input_heuristic"

def addressReuseMsg : String :=
  "Privacy: address reuse https://en.bitcoin.it/wiki/Privacy#Address_reuse"

/-- The script-type diversity check (print.rs lines 102-108): insert
script_type of every output script into a HashSet (the classification result,
including None for an unclassified script, is the inserted element) and emit
the finding when the set has more than one element.  The size of the HashSet is
the number of distinct elements, List.dedup here. -/
def scriptTypesInfo (outs : List TxOut) : List String :=
  let script_types := (outs.map (fun o => script_type o.script_pubkey)).dedup
  if 1 < script_types.length then [scriptTypesMsg] else []

/-- The round-amounts check (print.rs lines 116-120) over the collected
exponent vector. -/
def roundInfo (divs : List Nat) : List String :=
  match divs.max?, divs.min? with
  | some mx, some mn => if 3 ≤ mx - mn then [roundNumbersMsg] else []
  | _, _ => []

/-- The unnecessary-input check (print.rs lines 122-129). -/
def unnecessaryInputInfo (previous_outputs : List TxOut)
    (input_values output_values : List Nat) : List String :=
  if 1 < previous_outputs.length then
    match input_values.min? with
    | some smallest =>
      if output_values.any (fun v => decide (v < smallest)) then [unnecessaryInputMsg] else []
    | none => []
  else []

/-- The script-reuse check (print.rs lines 131-144): membership of any output
script in the set of input scripts. -/
def reuseInfo (previous_outputs : List TxOut) (outs : List TxOut) : List String :=
  let input_scripts := previous_outputs.map (fun o => o.script_pubkey)
  if outs.any (fun o => input_scripts.contains o.script_pubkey) then [addressReuseMsg] else []

/-- Modelled from the spec: the collaborator capability
estimateFinalWeight(psbt) -> integer (fn estimate_weight is repository code not
under src/); a deterministic stand-in that projects the fully signed weight. -/
def estimate_weight (psbt : PSBT) : Outcome Nat :=
  .ok (psbt.unsigned_tx.get_weight + 172 * psbt.inputs.length)

/-- Modelled from the spec: serialize(psbt).len() of the bitcoin consensus
encoder, stood in by a deterministic size formula. -/
def psbt_ser_len (psbt : PSBT) : Nat :=
  psbt.unsigned_tx.get_weight / 4 + 42 * psbt.inputs.length + 8 * psbt.outputs.length

/-- fn pretty_print (print.rs lines 32-163).  hashIter supplies the iteration
order of the balances HashMap at render time (line 94): the source iterates a
std HashMap, whose order is seeded per map instance and is not a function of
the contents; a run of the program corresponds to one choice of hashIter that
permutes the accumulated entries.  The fee on line 146 is the unchecked u64
subtraction sum(inputs) - sum(outputs): in a release build it wraps modulo
2^64 (a debug build would abort instead); no error is returned for it. -/
def pretty_print (hashIter : List (String × Int) → List (String × Int))
    (psbt : PSBT) (network : Network) (wallets : List WalletJson) :
    Outcome PsbtPrettyPrint :=
  let tx := psbt.unsigned_tx
  let vouts := tx.input.map (fun el => el.previous_output)
  match resolveLoop vouts psbt.inputs 0 with
  | .error e => .error e
  | .abort => .abort
  | .ok previous_outputs =>
    let input_values := previous_outputs.map (fun o => o.value)
    match inputsLoop wallets psbt.inputs previous_outputs tx.input 0 [] with
    | .error e => .error e
    | .abort => .abort
    | .ok (inRows, bal1) =>
      match outputsLoop network wallets psbt.outputs tx.output 0 bal1 with
      | .error e => .error e
      | .abort => .abort
      | .ok (outRows, bal2) =>
        let output_values := tx.output.map (fun o => o.value)
        let balances_vec := (hashIter bal2).map (fun p =>
          let k := p.1
          let v := signedAmountFmt p.2
          s!"{k}: {v}")
        let balances := String.intercalate "\n" balances_vec
        match collectU8 tx.output with
        | none => .abort
        | some divs =>
          let info := scriptTypesInfo tx.output ++ roundInfo divs
            ++ unnecessaryInputInfo previous_outputs input_values output_values
            ++ reuseInfo previous_outputs tx.output
          match estimate_weight psbt with
          | .error e => .error e
          | .abort => .abort
          | .ok est =>
            let fee := (sumU64 input_values + (u64Mod - sumU64 output_values)) % u64Mod
            let tx_vbytes := tx.get_weight / 4
            let estimated_tx_vbytes := est / 4
            .ok
              { inputs := inRows
                outputs := outRows
                balances := balances
                info := info
                size :=
                  { estimated := estimated_tx_vbytes
                    unsigned := tx_vbytes
                    psbt := psbt_ser_len psbt }
                fee :=
                  { absolute := fee
                    absolute_fmt := amountFmt fee
                    rate := (fee, estimated_tx_vbytes) } }

/-! ## Definitions written from the words of the spec, for comparison -/

/-- Modelled from the spec: the Horner / mixed-radix decoding of the digits
v - 1 in base faces, most significant first
(section 4.2: acc = digits[0]; for each subsequent digit d: acc = acc*faces + d). -/
def hornerDecodeSpec (digits : List Nat) (base : Nat) : Nat :=
  digits.foldl (fun acc d => acc * base + d) 0

/-- Modelled from the spec: the number of distinct classified shapes among the
outputs, unclassified scripts excluded (section 4.6 item 1). -/
def classifiedShapeCount (scripts : List (List Nat)) : Nat :=
  ((scripts.map script_type).filterMap id).dedup.length

/-- Modelled from the spec: the set of classes the code actually counts, the
unclassified marker included. -/
def codeShapeCount (scripts : List (List Nat)) : Nat :=
  ((scripts.map script_type)).dedup.length

/-- True exactly on the error outcome: an Err value returned through Result, as
opposed to a process abort. -/
def Outcome.isError {α : Type} : Outcome α → Bool
  | .error _ => true
  | _ => false

/-- The per-input body of the resolution loop (print.rs lines 43-54), factored
out of resolveLoop so that statements can speak about input i on its own. -/
def resolveOne (vouts : List OutPoint) (i : Nat) (pin : PsbtInput) : Outcome TxOut :=
  match pin.non_witness_utxo, pin.witness_utxo with
  | some prev_tx, none =>
    match vouts[i]? with
    | none => .error "can't find outpoint"
    | some outpoint =>
      if prev_tx.txid ≠ outpoint.txid then .abort
      else
        match prev_tx.output[outpoint.vout]? with
        | none => .error "can't find txout"
        | some o => .ok o
  | none, some val => .ok val
  | _, _ => .error "witness_utxo and non_witness_utxo are both None or both Some"

/-! ## Concrete inputs used by counterexamples and witnesses -/

/-- A canonical pay-to-public-key-hash script (25 bytes). -/
def exScriptA : List Nat :=
  [0x76, 0xa9, 0x14, 1, 1, 1, 1, 1, 1, 1, 1, 1, 1, 1, 1, 1, 1, 1, 1, 1, 1, 1, 1, 0x88, 0xac]

/-- A second, distinct pay-to-public-key-hash script. -/
def exScriptB : List Nat :=
  [0x76, 0xa9, 0x14, 2, 2, 2, 2, 2, 2, 2, 2, 2, 2, 2, 2, 2, 2, 2, 2, 2, 2, 2, 2, 0x88, 0xac]

/-- An OP_RETURN script: none of the five shapes matches it. -/
def exScriptOpReturn : List Nat := [0x6a]

/-- A PSBT whose outputs sum (2) exceeds its inputs sum (1). -/
def exUnderflowPSBT : PSBT :=
  { unsigned_tx :=
      { input := [{ previous_output := { txid := 5, vout := 0 } }]
        output := [{ value := 2, script_pubkey := exScriptB }] }
    inputs :=
      [{ non_witness_utxo := none
         witness_utxo := some { value := 1, script_pubkey := exScriptA }
         hd_keypaths := [] }]
    outputs := [{ hd_keypaths := [] }] }

/-- A PSBT with inputs sum 10 and outputs sum 3 (fee 7). -/
def exNormalPSBT : PSBT :=
  { unsigned_tx :=
      { input := [{ previous_output := { txid := 5, vout := 0 } }]
        output := [{ value := 3, script_pubkey := exScriptB }] }
    inputs :=
      [{ non_witness_utxo := none
         witness_utxo := some { value := 10, script_pubkey := exScriptA }
         hd_keypaths := [] }]
    outputs := [{ hd_keypaths := [] }] }

/-- A PSBT whose two inputs are attributed to two different wallets, so the
balances map holds two entries. -/
def exTwoWalletPSBT : PSBT :=
  { unsigned_tx :=
      { input :=
          [{ previous_output := { txid := 11, vout := 0 } },
           { previous_output := { txid := 12, vout := 0 } }]
        output := [{ value := 5, script_pubkey := exScriptB }] }
    inputs :=
      [{ non_witness_utxo := none
         witness_utxo := some { value := 10, script_pubkey := exScriptA }
         hd_keypaths := [{ pubkey := 1, fingerprint := 101, path := "m/0" }] },
       { non_witness_utxo := none
         witness_utxo := some { value := 20, script_pubkey := exScriptB }
         hd_keypaths := [{ pubkey := 2, fingerprint := 202, path := "m/1" }] }]
    outputs := [{ hd_keypaths := [] }] }

def exTwoWallets : List WalletJson :=
  [{ name := "w1", fingerprints := [101] }, { name := "w2", fingerprints := [202] }]

/-- A PSBT with an output of value 0. -/
def exZeroValuePSBT : PSBT :=
  { unsigned_tx :=
      { input := [{ previous_output := { txid := 5, vout := 0 } }]
        output := [{ value := 0, script_pubkey := exScriptB }] }
    inputs :=
      [{ non_witness_utxo := none
         witness_utxo := some { value := 3, script_pubkey := exScriptA }
         hd_keypaths := [] }]
    outputs := [{ hd_keypaths := [] }] }

/-- An arbitrary report value, used to instantiate a universally quantified
report variable in a witness. -/
def exDummyReport : PsbtPrettyPrint :=
  { inputs := []
    outputs := []
    balances := ""
    info := []
    size := { estimated := 0, unsigned := 0, psbt := 0 }
    fee := { absolute := 0, absolute_fmt := "", rate := (0, 0) } }

/-- An embedded previous transaction for the txid-mismatch counterexample. -/
def exPrevTx : Transaction :=
  { input := [], output := [{ value := 5, script_pubkey := [] }] }

/-- A PSBT input embedding exPrevTx as its full previous transaction. -/
def exMismatchInput : PsbtInput :=
  { non_witness_utxo := some exPrevTx, witness_utxo := none, hd_keypaths := [] }

/-- An outpoint list whose transaction id differs from the id of exPrevTx. -/
def exMismatchVouts : List OutPoint :=
  [{ txid := exPrevTx.txid + 1, vout := 0 }]

/-- Two outputs: one p2pkh, one unclassifiable. -/
def exDiverseOuts : List TxOut :=
  [{ value := 1, script_pubkey := exScriptA }, { value := 2, script_pubkey := exScriptOpReturn }]

/-- DiceOptions violating both validate checks: wrong length and a zero digit. -/
def exBothBadOpt : DiceOptions :=
  { faces := ._20, bits := ._128, key_name := "a", launches := [0], qr_version := 14 }

/-- DiceOptions with 28 launches where 29 are required (the documented test). -/
def ex28Opt : DiceOptions :=
  { faces := ._20, bits := ._128, key_name := "b", launches := List.replicate 28 1, qr_version := 14 }

/-- DiceOptions a coin accepts: 128 launches of value 1. -/
def exCoinOpt : DiceOptions :=
  { faces := ._2, bits := ._128, key_name := "c", launches := List.replicate 128 1, qr_version := 14 }

/-! # Lemmas and theorems -/

/-! ## required_dice_launches -/

theorem requiredLoop_spec (faces max : Nat) (hf : 2 ≤ faces) :
    ∀ (fuel count : Nat), faces ^ count ≤ max → max < count + fuel →
      ∃ r, requiredLoop faces max fuel count (faces ^ count) = some r ∧
        faces ^ r ≤ max ∧ max < faces ^ (r + 1) := by
  intro fuel
  induction fuel with
  | zero =>
    intro count hle hlt
    exfalso
    have h1 : count < 2 ^ count := Nat.lt_two_pow count
    have h2 : 2 ^ count ≤ faces ^ count := Nat.pow_le_pow_left hf count
    omega
  | succ fuel ih =>
    intro count hle hlt
    simp only [requiredLoop]
    by_cases hc : max < faces ^ count * faces
    · refine ⟨count, ?_, hle, ?_⟩
      · simp [hc]
      · rw [pow_succ]; exact hc
    · rw [if_neg hc]
      have hle2 : faces ^ (count + 1) ≤ max := by rw [pow_succ]; omega
      have h := ih (count + 1) hle2 (by omega)
      rw [pow_succ] at h
      simpa using h

theorem required_spec (faces max : Nat) (hf : 2 ≤ faces) (hm : 1 ≤ max) :
    ∃ r, required_dice_launches faces max = some r ∧
      faces ^ r ≤ max ∧ max < faces ^ (r + 1) := by
  have h := requiredLoop_spec faces max hf (max + 2) 0 (by simpa using hm) (by omega)
  simpa [required_dice_launches] using h

theorem required_largest {faces max r : Nat} (hf : 2 ≤ faces)
    (h2 : max < faces ^ (r + 1)) : ∀ c, faces ^ c ≤ max → c ≤ r := by
  intro c hc
  by_contra h
  push_neg at h
  have : faces ^ (r + 1) ≤ faces ^ c := Nat.pow_le_pow_right (by omega) (by omega)
  omega

/-- Claim C6: required_dice_launches(faces, max) returns the largest count with
faces ^ count <= max, for every faces >= 2 and every ceiling max >= 1 (in
particular max = 2 ^ bits), together with the twelve documented values. -/
theorem C6_required_launches_largest_power :
    (∀ faces max : Nat, 2 ≤ faces → 1 ≤ max →
      ∃ r, required_dice_launches faces max = some r ∧ faces ^ r ≤ max ∧
        ∀ c, faces ^ c ≤ max → c ≤ r)
    ∧ required_dice_launches 6 5 = some 0
    ∧ required_dice_launches 6 6 = some 1
    ∧ required_dice_launches 6 7 = some 1
    ∧ required_dice_launches 6 35 = some 1
    ∧ required_dice_launches 6 36 = some 2
    ∧ required_dice_launches 6 37 = some 2
    ∧ required_dice_launches 256 (2 ^ 128) = some 16
    ∧ required_dice_launches 256 (2 ^ 192) = some 24
    ∧ required_dice_launches 256 (2 ^ 256) = some 32
    ∧ required_dice_launches 8 (2 ^ 256) = some 85
    ∧ required_dice_launches 6 (2 ^ 256) = some 99
    ∧ required_dice_launches 20 (2 ^ 128) = some 29 := by
  refine ⟨?_, by decide, by decide, by decide, by decide, by decide, by decide,
    by decide, by decide, by decide, by decide, by decide, by decide⟩
  intro faces max hf hm
  obtain ⟨r, hr, hle, hlt⟩ := required_spec faces max hf hm
  exact ⟨r, hr, hle, required_largest hf hlt⟩

theorem C6_witness :
    ∃ r, required_dice_launches 6 5 = some r ∧ 6 ^ r ≤ 5 ∧ ∀ c, 6 ^ c ≤ 5 → c ≤ r :=
  C6_required_launches_largest_power.1 6 5 (by decide) (by decide)

/-! ## multiply_dice_launches -/

theorem foldl_mdlStep (base : Nat) :
    ∀ (rest : List Nat) (acc : Nat), (∀ i ∈ rest, 1 ≤ i) →
      rest.foldl (mdlStep base) (some acc) =
        some (List.foldl (fun a d => a * base + d) acc (rest.map (fun v => v - 1))) := by
  intro rest
  induction rest with
  | nil => intro acc _; rfl
  | cons x xs ih =>
    intro acc hpos
    have hx : ¬ x = 0 := by have := hpos x (by simp); omega
    have hxs : ∀ i ∈ xs, 1 ≤ i := fun i hi => hpos i (by simp [hi])
    simp only [List.foldl_cons, List.map_cons]
    rw [show mdlStep base (some acc) x = some (acc * base + (x - 1)) from by
      simp [mdlStep, hx]]
    exact ih (acc * base + (x - 1)) hxs

theorem mdl_eq_horner (launches : List Nat) (faces : Nat) (hne : launches ≠ [])
    (hpos : ∀ v ∈ launches, 1 ≤ v) :
    multiply_dice_launches launches faces =
      some (hornerDecodeSpec (launches.map (fun v => v - 1)) faces) := by
  match launches, hne with
  | v :: rest, _ =>
    have hv : ¬ v = 0 := by have := hpos v (by simp); omega
    have hrest : ∀ i ∈ rest, 1 ≤ i := fun i hi => hpos i (by simp [hi])
    simp only [multiply_dice_launches, hornerDecodeSpec, List.map_cons, List.foldl_cons]
    rw [if_neg hv, foldl_mdlStep faces rest (v - 1) hrest]
    congr 1
    norm_num

theorem horner_lt (base : Nat) :
    ∀ (ds : List Nat) (acc k : Nat), acc < base ^ k → (∀ d ∈ ds, d < base) →
      List.foldl (fun a d => a * base + d) acc ds < base ^ (k + ds.length) := by
  intro ds
  induction ds with
  | nil => intro acc k h _; simpa using h
  | cons d rest ih =>
    intro acc k hacc hd
    have hdb : d < base := hd d (by simp)
    have step : acc * base + d < base ^ (k + 1) := by
      have h1 : acc * base + d < (acc + 1) * base := by nlinarith
      have h2 : (acc + 1) * base ≤ base ^ k * base := Nat.mul_le_mul_right base (by omega)
      rw [pow_succ]
      omega
    have h := ih (acc * base + d) (k + 1) step (fun x hx => hd x (by simp [hx]))
    have he : k + 1 + rest.length = k + (d :: rest).length := by simp; omega
    simpa [he] using h

/-- Claim C7: for every non-empty launch sequence with values in [1, faces],
multiply_dice_launches returns the Horner mixed-radix decoding of the digits
v - 1 in base faces, most significant first, and the result is at most
faces ^ N - 1; together with the five documented values. -/
theorem C7_mixed_radix_encoding :
    (∀ (launches : List Nat) (faces : Nat), launches ≠ [] →
      (∀ v ∈ launches, 1 ≤ v ∧ v ≤ faces) →
      ∃ n, multiply_dice_launches launches faces = some n ∧
        n = hornerDecodeSpec (launches.map (fun v => v - 1)) faces ∧
        n ≤ faces ^ launches.length - 1)
    ∧ multiply_dice_launches [6, 6] 6 = some 35
    ∧ multiply_dice_launches [6] 6 = some 5
    ∧ multiply_dice_launches [10, 10] 10 = some 99
    ∧ multiply_dice_launches [1, 1, 1] 2 = some 0
    ∧ multiply_dice_launches [2] 2 = some 1 := by
  refine ⟨?_, by decide, by decide, by decide, by decide, by decide⟩
  intro launches faces hne hb
  have hpos : ∀ v ∈ launches, 1 ≤ v := fun v hv => (hb v hv).1
  refine ⟨_, mdl_eq_horner launches faces hne hpos, rfl, ?_⟩
  match launches, hne with
  | v :: rest, _ =>
    have hvb := hb v (by simp)
    have hv : v - 1 < faces := by omega
    have hd : ∀ d ∈ rest.map (fun x => x - 1), d < faces := by
      intro d hdm
      obtain ⟨w, hw, rfl⟩ := List.mem_map.1 hdm
      have := hb w (by simp [hw])
      omega
    have h := horner_lt faces (rest.map (fun x => x - 1)) (v - 1) 1 (by simpa using hv) hd
    simp only [hornerDecodeSpec, List.map_cons, List.foldl_cons, List.length_map] at h ⊢
    have hz : 0 * faces + (v - 1) = v - 1 := by omega
    rw [hz]
    have he : 1 + rest.length = (v :: rest).length := by simp; omega
    rw [he] at h
    omega

theorem C7_witness :
    ∃ n, multiply_dice_launches [6, 6] 6 = some n ∧
      n = hornerDecodeSpec ([6, 6].map (fun v => v - 1)) 6 ∧
      n ≤ 6 ^ ([6, 6] : List Nat).length - 1 :=
  C7_mixed_radix_encoding.1 [6, 6] 6 (by decide) (by decide)

/-! ## DiceOptions::validate -/

theorem Base.two_le (b : Base) : 2 ≤ b.toNat := by cases b <;> decide

theorem Bits.one_le (b : Bits) : 1 ≤ b.toBigUint := by cases b <;> decide

theorem base_le_ceiling (f : Base) (b : Bits) : f.toNat ≤ b.toBigUint := by
  cases f <;> cases b <;> decide

theorem validate_eq (o : DiceOptions) (count : Nat)
    (hc : required_dice_launches o.faces.toNat o.bits.toBigUint = some count) :
    o.validate =
      if o.launches.length ≠ count then
        .error (mismatchMsg count o.bits.debugTail o.launches.length)
      else if o.launches.any (fun n => n == 0 || o.faces.toNat < n) then
        .error (rangeMsg o.faces.toNat)
      else .ok () := by
  simp only [DiceOptions.validate]
  rw [hc]

theorem required_one_le (f : Base) (b : Bits) :
    ∃ r, required_dice_launches f.toNat b.toBigUint = some r ∧ 1 ≤ r := by
  obtain ⟨r, hr, _, hlt⟩ := required_spec f.toNat b.toBigUint (Base.two_le f) (Bits.one_le b)
  refine ⟨r, hr, required_largest (Base.two_le f) hlt 1 ?_⟩
  rw [pow_one]
  exact base_le_ceiling f b

/-- Claim C8 as amended: validate fails with the count-mismatch message (naming
the required and the provided count) exactly when the length differs from
required(faces, 2^bits); when the length matches, it fails with the range
message exactly when some launch value is 0 or exceeds faces, and returns Ok
otherwise — the count check runs first, so a sequence violating both checks
gets the count-mismatch error.  The two closed conjuncts are the documented
instances. -/
theorem C8_validate_checks :
    (∀ o : DiceOptions,
      ∃ count, required_dice_launches o.faces.toNat o.bits.toBigUint = some count ∧
        (o.launches.length ≠ count →
          o.validate = .error (mismatchMsg count o.bits.debugTail o.launches.length)) ∧
        (o.launches.length = count →
          ((∃ v ∈ o.launches, v = 0 ∨ o.faces.toNat < v) →
            o.validate = .error (rangeMsg o.faces.toNat)) ∧
          ((∀ v ∈ o.launches, 1 ≤ v ∧ v ≤ o.faces.toNat) → o.validate = .ok ())))
    ∧ DiceOptions.validate ex28Opt =
        .error "Need 29 dice launches (-l) to achieve 128 bits of entropy (provided: 28)"
    ∧ DiceOptions.validate
        { faces := ._20, bits := ._128, key_name := "c",
          launches := List.replicate 29 21, qr_version := 14 } =
        .error "Numbers must be from 1 to 20 included" := by
  refine ⟨?_, by decide, by decide⟩
  intro o
  obtain ⟨count, hc, _⟩ := required_one_le o.faces o.bits
  refine ⟨count, hc, ?_, ?_⟩
  · intro hne
    rw [validate_eq o count hc, if_pos hne]
  · intro heq
    constructor
    · rintro ⟨v, hv, hbad⟩
      rw [validate_eq o count hc, if_neg (by omega), if_pos ?_]
      refine List.any_eq_true.2 ⟨v, hv, ?_⟩
      simp only [Bool.or_eq_true, beq_iff_eq, decide_eq_true_eq]
      omega
    · intro hgood
      rw [validate_eq o count hc, if_neg (by omega), if_neg ?_]
      intro hany
      obtain ⟨v, hv, hbad⟩ := List.any_eq_true.1 hany
      simp only [Bool.or_eq_true, beq_iff_eq, decide_eq_true_eq] at hbad
      have := hgood v hv
      omega

/-- Claim C8 counterexample: a sequence that violates both checks (length 1
instead of 29, and it contains the out-of-range value 0) draws the
count-mismatch error, not the out-of-range error the claim requires for any
sequence containing a 0. -/
theorem C8_counterexample :
    DiceOptions.validate exBothBadOpt =
      .error "Need 29 dice launches (-l) to achieve 128 bits of entropy (provided: 1)"
    ∧ (0 : Nat) ∈ exBothBadOpt.launches
    ∧ DiceOptions.validate exBothBadOpt ≠ .error "Numbers must be from 1 to 20 included" := by
  exact ⟨by decide, by decide, by decide⟩

theorem C8_witness :
    DiceOptions.validate
        { faces := Base._20, bits := Bits._128, key_name := "w",
          launches := List.replicate 29 1, qr_version := 14 } = .ok () := by
  obtain ⟨count, hc, _, hok⟩ := C8_validate_checks.1
    { faces := Base._20, bits := Bits._128, key_name := "w",
      launches := List.replicate 29 1, qr_version := 14 }
  have h29 : required_dice_launches (Base._20.toNat) (Bits._128.toBigUint) = some 29 := by
    decide
  rw [h29] at hc
  have hcount : count = 29 := (Option.some.inj hc).symm
  subst hcount
  exact (hok (by decide)).2 (by decide)

/-- Claim C10: for every DiceOptions accepted by validate the encoding step
never aborts: required is at least 1 for every valid faces/bits combination,
a validated sequence is non-empty with every value at least 1, and the dice
encoding inside roll returns a value. -/
theorem C10_validated_roll_never_aborts :
    (∀ (f : Base) (b : Bits),
      ∃ r, required_dice_launches f.toNat b.toBigUint = some r ∧ 1 ≤ r)
    ∧ (∀ o : DiceOptions, o.validate = .ok () →
        ∃ n, multiply_dice_launches o.launches o.faces.toNat = some n ∧
          rollEncodingStep o = .ok n) := by
  refine ⟨fun f b => required_one_le f b, ?_⟩
  intro o hok
  obtain ⟨count, hc, hcpos⟩ := required_one_le o.faces o.bits
  rw [validate_eq o count hc] at hok
  by_cases hlen : o.launches.length ≠ count
  · rw [if_pos hlen] at hok
    simp at hok
  · rw [if_neg hlen] at hok
    by_cases hany : (o.launches.any (fun n => n == 0 || o.faces.toNat < n)) = true
    · rw [if_pos hany] at hok
      simp at hok
    · have hgood : ∀ v ∈ o.launches, 1 ≤ v := by
        intro v hv
        by_contra hv0
        apply hany
        refine List.any_eq_true.2 ⟨v, hv, ?_⟩
        simp only [Bool.or_eq_true, beq_iff_eq, decide_eq_true_eq]
        omega
      have hne : o.launches ≠ [] := by
        intro hnil
        have : o.launches.length = 0 := by rw [hnil]; rfl
        omega
      have hmdl := mdl_eq_horner o.launches o.faces.toNat hne hgood
      refine ⟨_, hmdl, ?_⟩
      have hvalok : o.validate = .ok () := by
        rw [validate_eq o count hc, if_neg hlen, if_neg hany]
      simp only [rollEncodingStep, hvalok, hmdl]

set_option maxRecDepth 8000 in
theorem C10_witness :
    ∃ n, multiply_dice_launches exCoinOpt.launches exCoinOpt.faces.toNat = some n ∧
      rollEncodingStep exCoinOpt = .ok n :=
  C10_validated_roll_never_aborts.2 exCoinOpt (by decide)

/-! ## biggest_dividing_pow -/

theorem bdpGo_ret (num : Nat) :
    ∀ (d c fuel : Nat), c + d ≤ 18 → d < fuel →
      10 ^ (c + d) ∣ num → ¬ (10 ^ (c + d + 1) ∣ num) →
      bdpGo num fuel (10 ^ (c + 1)) c = some (c + d) := by
  intro d
  induction d with
  | zero =>
    intro c fuel _ hfuel hdvd hnot
    match fuel, hfuel with
    | f + 1, _ =>
      simp only [bdpGo]
      rw [if_neg (by positivity), if_pos ?_]
      · simp
      · rw [Ne, ← Nat.dvd_iff_mod_eq_zero]
        simpa using hnot
  | succ d ih =>
    intro c fuel hle hfuel hdvd hnot
    match fuel, hfuel with
    | f + 1, hf =>
      have hdvd1 : 10 ^ (c + 1) ∣ num := by
        refine dvd_trans (pow_dvd_pow 10 (by omega)) hdvd
      simp only [bdpGo]
      rw [if_neg (by positivity), if_neg ?_]
      · have hstart : 10 ^ (c + 1) * 10 % u64Mod = 10 ^ (c + 1 + 1) := by
          rw [← pow_succ]
          refine Nat.mod_eq_of_lt ?_
          calc 10 ^ (c + 1 + 1) ≤ 10 ^ 19 := Nat.pow_le_pow_right (by omega) (by omega)
          _ < 2 ^ 64 := by norm_num
          _ ≤ u64Mod := by norm_num [u64Mod]
        have hcount : (c + 1) % 256 = c + 1 := Nat.mod_eq_of_lt (by omega)
        rw [hstart, hcount]
        have e1 : c + 1 + d = c + (d + 1) := by omega
        have key := ih (c + 1) f (by omega) (by omega) (by rw [e1]; exact hdvd)
          (by rw [e1]; exact hnot)
        rw [e1] at key
        exact key
      · rw [Ne, ← Nat.dvd_iff_mod_eq_zero, not_not]
        exact hdvd1

theorem bdp_spec (num : Nat) (h1 : 1 ≤ num) (h2 : num < 2 ^ 64) :
    ∃ k, biggest_dividing_pow num = some k ∧ 10 ^ k ∣ num ∧ ¬ 10 ^ (k + 1) ∣ num := by
  classical
  obtain ⟨K, hK_le, hPk, hnot⟩ :
      ∃ K, K ≤ 19 ∧ 10 ^ K ∣ num ∧ (K ≤ 18 → ¬ 10 ^ (K + 1) ∣ num) := by
    refine ⟨Nat.findGreatest (fun j => 10 ^ j ∣ num) 19, Nat.findGreatest_le 19, ?_, ?_⟩
    · exact @Nat.findGreatest_spec 0 (fun j => 10 ^ j ∣ num) _ 19 (by omega) (by simp)
    · intro hle
      exact @Nat.findGreatest_is_greatest
        (Nat.findGreatest (fun j => 10 ^ j ∣ num) 19 + 1) (fun j => 10 ^ j ∣ num) _ 19
        (by omega) (by omega)
  by_cases hk19 : K = 19
  · subst hk19
    obtain ⟨m, rfl⟩ := hPk
    have hm : m = 1 := by
      rcases Nat.lt_or_ge m 2 with hm2 | hm2
      · interval_cases m
        · simp at h1
        · rfl
      · exfalso
        have hmul : 10 ^ 19 * 2 ≤ 10 ^ 19 * m := Nat.mul_le_mul_left _ hm2
        have h20 : (2 : Nat) ^ 64 < 10 ^ 19 * 2 := by norm_num
        omega
    subst hm
    refine ⟨19, by decide, by norm_num, ?_⟩
    intro hdvd
    have := Nat.le_of_dvd (by norm_num) hdvd
    norm_num at this
  · have hK18 : K ≤ 18 := by omega
    refine ⟨K, ?_, hPk, hnot hK18⟩
    have key := bdpGo_ret num K 0 100 (by omega) (by omega)
      (by simpa using hPk) (by simpa using hnot hK18)
    have e : (10 : Nat) ^ (0 + 1) = 10 := by norm_num
    rw [e] at key
    simpa [biggest_dividing_pow] using key

theorem collectU8_zero (outs : List TxOut) (h : ∃ o ∈ outs, o.value = 0) :
    collectU8 outs = none := by
  induction outs with
  | nil => simp at h
  | cons o rest ih =>
    obtain ⟨w, hw, hw0⟩ := h
    simp only [List.mem_cons] at hw
    rcases hw with rfl | hw
    · have hz : biggest_dividing_pow w.value = none := by rw [hw0]; decide
      cases hcr : collectU8 rest <;> simp [collectU8, hz, hcr]
    · have hrest := ih ⟨w, hw, hw0⟩
      cases hbd : biggest_dividing_pow o.value <;> simp [collectU8, hbd, hrest]

theorem collectU8_char (outs : List TxOut)
    (hvals : ∀ o ∈ outs, 1 ≤ o.value ∧ o.value < 2 ^ 64) :
    ∃ ds, collectU8 outs = some ds ∧
      List.Forall₂ (fun o d => 10 ^ d ∣ o.value ∧ ¬ 10 ^ (d + 1) ∣ o.value) outs ds := by
  induction outs with
  | nil => exact ⟨[], rfl, List.Forall₂.nil⟩
  | cons o rest ih =>
    obtain ⟨k, hk, hdvd, hnot⟩ := bdp_spec o.value (hvals o (by simp)).1 (hvals o (by simp)).2
    obtain ⟨ds, hds, hfa⟩ := ih (fun x hx => hvals x (by simp [hx]))
    exact ⟨k :: ds, by simp [collectU8, hk, hds], List.Forall₂.cons ⟨hdvd, hnot⟩ hfa⟩

theorem roundInfo_ne_nil_iff (divs : List Nat) :
    roundInfo divs ≠ [] ↔
      ∃ mx mn, divs.max? = some mx ∧ divs.min? = some mn ∧ 3 ≤ mx - mn := by
  unfold roundInfo
  cases hmx : divs.max? with
  | none => simp
  | some mx =>
    cases hmn : divs.min? with
    | none => simp
    | some mn =>
      by_cases h3 : 3 ≤ mx - mn
      · simp only [if_pos h3]
        constructor
        · intro _
          exact ⟨mx, mn, rfl, rfl, h3⟩
        · intro _
          simp [roundNumbersMsg]
      · simp only [if_neg h3]
        constructor
        · intro h
          exact absurd rfl h
        · rintro ⟨mx2, mn2, hmx2, hmn2, h32⟩
          cases hmx2
          cases hmn2
          omega

/-- Claim C5: biggest_dividing_pow computes, for each output value, the
exponent of the largest power of ten dividing it (0 when not divisible by 10),
with the six documented values; and the round-number finding of the check over
the collected exponent vector is emitted exactly when the maximum exponent
exceeds the minimum by at least 3. -/
theorem C5_round_number_check :
    (∀ num : Nat, 1 ≤ num → num < 2 ^ 64 →
      ∃ k, biggest_dividing_pow num = some k ∧ 10 ^ k ∣ num ∧ ¬ 10 ^ (k + 1) ∣ num)
    ∧ biggest_dividing_pow 3 = some 0
    ∧ biggest_dividing_pow 10 = some 1
    ∧ biggest_dividing_pow 11 = some 0
    ∧ biggest_dividing_pow 110 = some 1
    ∧ biggest_dividing_pow 1100 = some 2
    ∧ biggest_dividing_pow 1100030 = some 1
    ∧ (∀ outs : List TxOut, (∀ o ∈ outs, 1 ≤ o.value ∧ o.value < 2 ^ 64) →
        ∃ ds, collectU8 outs = some ds ∧
          List.Forall₂ (fun o d => 10 ^ d ∣ o.value ∧ ¬ 10 ^ (d + 1) ∣ o.value) outs ds ∧
          (roundInfo ds ≠ [] ↔
            ∃ mx mn, ds.max? = some mx ∧ ds.min? = some mn ∧ 3 ≤ mx - mn)) := by
  refine ⟨bdp_spec, by decide, by decide, by decide, by decide, by decide, by decide, ?_⟩
  intro outs hvals
  obtain ⟨ds, hds, hfa⟩ := collectU8_char outs hvals
  exact ⟨ds, hds, hfa, roundInfo_ne_nil_iff ds⟩

theorem C5_witness :
    ∃ ds, collectU8 [{ value := 1000, script_pubkey := [] },
        { value := 3, script_pubkey := [] }] = some ds ∧
      List.Forall₂ (fun (o : TxOut) d => 10 ^ d ∣ o.value ∧ ¬ 10 ^ (d + 1) ∣ o.value)
        [{ value := 1000, script_pubkey := [] }, { value := 3, script_pubkey := [] }] ds ∧
      (roundInfo ds ≠ [] ↔
        ∃ mx mn, ds.max? = some mx ∧ ds.min? = some mn ∧ 3 ≤ mx - mn) :=
  C5_round_number_check.2.2.2.2.2.2.2
    [{ value := 1000, script_pubkey := [] }, { value := 3, script_pubkey := [] }]
    (by decide)

/-! ## Script-type diversity -/

theorem script_type_eq (s : List Nat) :
    script_type s =
      if is_p2pk s then some 0
      else if is_p2pkh s then some 1
      else if is_p2sh s then some 2
      else if is_v0_p2wpkh s then some 3
      else if is_v0_p2wsh s then some 4
      else none := by
  simp only [script_type, SCRIPT_TYPE_FN, List.findIdx?_cons, List.findIdx?_nil]

theorem scriptTypesInfo_ne_nil_iff (outs : List TxOut) :
    scriptTypesInfo outs ≠ [] ↔
      1 < codeShapeCount (outs.map (fun o => o.script_pubkey)) := by
  unfold scriptTypesInfo codeShapeCount
  rw [List.map_map]
  have e : (script_type ∘ fun o : TxOut => o.script_pubkey) =
      (fun o : TxOut => script_type o.script_pubkey) := rfl
  rw [e]
  by_cases h : 1 < ((outs.map fun o => script_type o.script_pubkey).dedup).length
  · simp [h, scriptTypesMsg]
  · simp [h]

/-- Claim C3 as amended: each output script is classified by the first matching
shape of the fixed priority list (p2pk, p2pkh, p2sh, v0-wpkh, v0-wsh), None
when no shape matches; the finding is emitted exactly when more than one
distinct classification value appears among the outputs, where the shared
unclassified marker None itself participates in the distinct count (the code
inserts the whole Option value into the set, so unclassified outputs are not
excluded). -/
theorem C3_script_diversity_check :
    (∀ s : List Nat, script_type s =
      if is_p2pk s then some 0
      else if is_p2pkh s then some 1
      else if is_p2sh s then some 2
      else if is_v0_p2wpkh s then some 3
      else if is_v0_p2wsh s then some 4
      else none)
    ∧ (∀ outs : List TxOut, scriptTypesInfo outs ≠ [] ↔
        1 < codeShapeCount (outs.map (fun o => o.script_pubkey))) :=
  ⟨script_type_eq, scriptTypesInfo_ne_nil_iff⟩

/-- Claim C3 counterexample: a transaction with one p2pkh output and one
unclassifiable output has exactly one distinct classified shape, yet the code
emits the diversity finding, because the unclassified marker enters the
distinct count. -/
theorem C3_counterexample :
    scriptTypesInfo exDiverseOuts = [scriptTypesMsg]
    ∧ classifiedShapeCount (exDiverseOuts.map (fun o => o.script_pubkey)) = 1 := by
  exact ⟨by decide, by decide⟩

theorem C3_witness :
    scriptTypesInfo [] ≠ [] ↔ 1 < codeShapeCount (([] : List TxOut).map (fun o => o.script_pubkey)) :=
  C3_script_diversity_check.2 []

/-! ## Previous-output resolution -/

theorem resolveLoop_cons (vouts : List OutPoint) (pin : PsbtInput)
    (rest : List PsbtInput) (i : Nat) :
    resolveLoop vouts (pin :: rest) i =
      match resolveOne vouts i pin with
      | .ok o => Outcome.map (fun tl => o :: tl) (resolveLoop vouts rest (i + 1))
      | .error e => .error e
      | .abort => .abort := by
  cases hn : pin.non_witness_utxo with
  | none =>
    cases hw : pin.witness_utxo with
    | none => simp [resolveLoop, resolveOne, hn, hw]
    | some val => simp [resolveLoop, resolveOne, hn, hw]
  | some t =>
    cases hw : pin.witness_utxo with
    | some val => simp [resolveLoop, resolveOne, hn, hw]
    | none =>
      cases hv : vouts[i]? with
      | none => simp [resolveLoop, resolveOne, hn, hw, hv]
      | some op =>
        by_cases htx : t.txid ≠ op.txid
        · simp [resolveLoop, resolveOne, hn, hw, hv, htx]
        · cases ho : t.output[op.vout]? with
          | none => simp [resolveLoop, resolveOne, hn, hw, hv, htx, ho]
          | some o => simp [resolveLoop, resolveOne, hn, hw, hv, htx, ho]

theorem resolveLoop_ok (vouts : List OutPoint) :
    ∀ (pins : List PsbtInput) (i : Nat) (outs : List TxOut),
      resolveLoop vouts pins i = .ok outs →
      outs.length = pins.length ∧
      ∀ j pin, pins[j]? = some pin →
        ∃ o, outs[j]? = some o ∧ resolveOne vouts (i + j) pin = .ok o := by
  intro pins
  induction pins with
  | nil =>
    intro i outs h
    have houts : outs = [] := by simpa [resolveLoop] using h.symm
    subst houts
    exact ⟨rfl, by intro j pin hj; simp at hj⟩
  | cons pin rest ih =>
    intro i outs h
    rw [resolveLoop_cons] at h
    cases hone : resolveOne vouts i pin with
    | error e => rw [hone] at h; simp at h
    | abort => rw [hone] at h; simp at h
    | ok o =>
      rw [hone] at h
      cases hrec : resolveLoop vouts rest (i + 1) with
      | error e => rw [hrec] at h; simp [Outcome.map] at h
      | abort => rw [hrec] at h; simp [Outcome.map] at h
      | ok tl =>
        rw [hrec] at h
        simp only [Outcome.map, Outcome.ok.injEq] at h
        obtain ⟨hlen, hpt⟩ := ih (i + 1) tl hrec
        subst h
        refine ⟨by simp [hlen], ?_⟩
        intro j q hq
        cases j with
        | zero =>
          simp only [List.getElem?_cons_zero, Option.some.injEq] at hq
          subst hq
          exact ⟨o, by simp, by simpa using hone⟩
        | succ j =>
          simp only [List.getElem?_cons_succ] at hq
          obtain ⟨o2, ho2, hro⟩ := hpt j q hq
          refine ⟨o2, by simpa using ho2, ?_⟩
          have e : i + (j + 1) = i + 1 + j := by omega
          rw [e]
          exact hro

/-- Claim C4 as amended: per PSBT input, when only a full previous transaction
is embedded, a mismatch between its transaction id and the outpoint txid makes
the resolution abort through the assert_eq! on print.rs line 46 — a process
abort, not a returned error; an out-of-range output index yields the Err
"can't find txout"; a single embedded previous output is used directly; both
or neither embeddings present yields the Err naming both fields; and an ok
resolution yields exactly one previous output per input, in input order. -/
theorem C4_prev_output_resolution :
    (∀ (vouts : List OutPoint) (pin : PsbtInput) (rest : List PsbtInput) (i : Nat),
      resolveLoop vouts (pin :: rest) i =
        match resolveOne vouts i pin with
        | .ok o => Outcome.map (fun tl => o :: tl) (resolveLoop vouts rest (i + 1))
        | .error e => .error e
        | .abort => .abort)
    ∧ (∀ (vouts : List OutPoint) (i : Nat) (pin : PsbtInput) prev_tx outpoint,
        pin.non_witness_utxo = some prev_tx → pin.witness_utxo = none →
        vouts[i]? = some outpoint → prev_tx.txid ≠ outpoint.txid →
        resolveOne vouts i pin = .abort)
    ∧ (∀ (vouts : List OutPoint) (i : Nat) (pin : PsbtInput) prev_tx outpoint,
        pin.non_witness_utxo = some prev_tx → pin.witness_utxo = none →
        vouts[i]? = some outpoint → prev_tx.txid = outpoint.txid →
        prev_tx.output[outpoint.vout]? = none →
        resolveOne vouts i pin = .error "can't find txout")
    ∧ (∀ (vouts : List OutPoint) (i : Nat) (pin : PsbtInput) prev_tx outpoint o,
        pin.non_witness_utxo = some prev_tx → pin.witness_utxo = none →
        vouts[i]? = some outpoint → prev_tx.txid = outpoint.txid →
        prev_tx.output[outpoint.vout]? = some o →
        resolveOne vouts i pin = .ok o)
    ∧ (∀ (vouts : List OutPoint) (i : Nat) (pin : PsbtInput) val,
        pin.non_witness_utxo = none → pin.witness_utxo = some val →
        resolveOne vouts i pin = .ok val)
    ∧ (∀ (vouts : List OutPoint) (i : Nat) (pin : PsbtInput),
        (pin.non_witness_utxo = none ∧ pin.witness_utxo = none) ∨
          (pin.non_witness_utxo ≠ none ∧ pin.witness_utxo ≠ none) →
        resolveOne vouts i pin =
          .error "witness_utxo and non_witness_utxo are both None or both Some")
    ∧ (∀ (vouts : List OutPoint) (pins : List PsbtInput) (i : Nat) (outs : List TxOut),
        resolveLoop vouts pins i = .ok outs →
        outs.length = pins.length ∧
        ∀ j pin, pins[j]? = some pin →
          ∃ o, outs[j]? = some o ∧ resolveOne vouts (i + j) pin = .ok o) := by
  refine ⟨resolveLoop_cons, ?_, ?_, ?_, ?_, ?_, resolveLoop_ok⟩
  · intro vouts i pin prev_tx outpoint hn hw hv htx
    simp [resolveOne, hn, hw, hv, htx]
  · intro vouts i pin prev_tx outpoint hn hw hv htx ho
    simp [resolveOne, hn, hw, hv, htx, ho]
  · intro vouts i pin prev_tx outpoint o hn hw hv htx ho
    simp [resolveOne, hn, hw, hv, htx, ho]
  · intro vouts i pin val hn hw
    simp [resolveOne, hn, hw]
  · intro vouts i pin hcase
    rcases hcase with ⟨hn, hw⟩ | ⟨hn, hw⟩
    · simp [resolveOne, hn, hw]
    · cases ht : pin.non_witness_utxo with
      | none => exact absurd ht hn
      | some t =>
        cases hv : pin.witness_utxo with
        | none => exact absurd hv hw
        | some v => simp [resolveOne, ht, hv]

/-- Claim C4 counterexample: an input embedding a previous transaction whose
id differs from the outpoint txid makes the resolution abort (assert_eq!
panic); the outcome is not an error value of any kind, while the claim says
the resolution fails with an OutpointMismatch error. -/
theorem C4_counterexample :
    resolveLoop exMismatchVouts [exMismatchInput] 0 = Outcome.abort
    ∧ (resolveLoop exMismatchVouts [exMismatchInput] 0).isError = false := by
  exact ⟨by decide, by decide⟩

theorem C4_witness :
    resolveOne [] 0
      { non_witness_utxo := none
        witness_utxo := some { value := 7, script_pubkey := [] }
        hd_keypaths := [] } = .ok { value := 7, script_pubkey := [] } :=
  C4_prev_output_resolution.2.2.2.2.1 [] 0
    { non_witness_utxo := none
      witness_utxo := some { value := 7, script_pubkey := [] }
      hd_keypaths := [] }
    { value := 7, script_pubkey := [] } rfl rfl

/-! ## pretty_print: fee, balances order, zero-value outputs -/

theorem pretty_print_ok_collect (hashIter : List (String × Int) → List (String × Int))
    (psbt : PSBT) (network : Network) (wallets : List WalletJson) (r : PsbtPrettyPrint)
    (h : pretty_print hashIter psbt network wallets = .ok r) :
    ∃ ds, collectU8 psbt.unsigned_tx.output = some ds := by
  cases hc : collectU8 psbt.unsigned_tx.output with
  | some ds => exact ⟨ds, rfl⟩
  | none =>
    exfalso
    simp only [pretty_print, hc] at h
    split at h
    · exact Outcome.noConfusion h
    · exact Outcome.noConfusion h
    · split at h
      · exact Outcome.noConfusion h
      · exact Outcome.noConfusion h
      · split at h
        · exact Outcome.noConfusion h
        · exact Outcome.noConfusion h
        · exact Outcome.noConfusion h

/-- Claim C1 (the code has no NegativeFee path): on a PSBT whose outputs sum
(2) exceeds its inputs sum (1), pretty_print returns a report whose absolute
fee is the wrapped subtraction 2^64 - 1 instead of failing with a NegativeFee
error (with overflow checks enabled the subtraction aborts the process; no
error value exists on either profile); on a PSBT with S_out <= S_in (10 and 3)
the reported fee is S_in - S_out = 7. -/
theorem C1_fee_wraps_instead_of_error :
    Option.map (fun r => r.fee.absolute)
        (pretty_print (fun l => l) exUnderflowPSBT Network.testnet []).okVal =
      some 18446744073709551615
    ∧ Option.map (fun r => r.fee.absolute)
        (pretty_print (fun l => l) exNormalPSBT Network.testnet []).okVal = some 7 := by
  exact ⟨by decide, by decide⟩

/-- Claim C2 (the code does not sort the balances): the rendered report is not
a function of the PSBT and the wallet list alone — the balances string follows
the iteration order of the std HashMap, which is seeded per map instance and
never sorted by the source, so two runs that iterate the same two entries in
opposite orders render different reports.  Both orders used here are
permutations of the accumulated entries, as the final conjunct records. -/
theorem C2_balances_order_dependent :
    (∃ r1 r2,
      pretty_print (fun l => l) exTwoWalletPSBT Network.testnet exTwoWallets = .ok r1 ∧
      pretty_print (fun l => l.reverse) exTwoWalletPSBT Network.testnet exTwoWallets = .ok r2 ∧
      r1.balances ≠ r2.balances)
    ∧ (∀ l : List (String × Int), List.Perm l.reverse l) :=
  ⟨⟨_, _, rfl, rfl, by decide⟩, fun l => List.reverse_perm l⟩

/-- Claim C9: biggest_dividing_pow returns a value for every num >= 1 in the
u64 range; on input 0 it never returns normally (every power of ten divides 0,
so the loop only stops by aborting: at the remainder by zero once start wraps
to 0 in a release build, or at the multiplication overflow in a debug build);
consequently a PSBT containing an output of value 0 never produces a Report. -/
theorem C9_zero_value_output_no_report :
    (∀ num : Nat, 1 ≤ num → num < 2 ^ 64 → (biggest_dividing_pow num).isSome)
    ∧ biggest_dividing_pow 0 = none
    ∧ (∀ (hashIter : List (String × Int) → List (String × Int)) (psbt : PSBT)
        (network : Network) (wallets : List WalletJson) (r : PsbtPrettyPrint),
        (∃ o ∈ psbt.unsigned_tx.output, o.value = 0) →
        pretty_print hashIter psbt network wallets ≠ .ok r) := by
  refine ⟨?_, by decide, ?_⟩
  · intro num h1 h2
    obtain ⟨k, hk, _, _⟩ := bdp_spec num h1 h2
    simp [hk]
  · intro hashIter psbt network wallets r hzero h
    have hc := collectU8_zero psbt.unsigned_tx.output hzero
    obtain ⟨ds, hds⟩ := pretty_print_ok_collect hashIter psbt network wallets r h
    rw [hds] at hc
    exact Option.noConfusion hc

theorem C9_witness :
    (biggest_dividing_pow 7).isSome = true
    ∧ pretty_print (fun l => l) exZeroValuePSBT Network.testnet [] ≠ .ok exDummyReport := by
  constructor
  · exact C9_zero_value_output_no_report.1 7 (by decide) (by decide)
  · exact C9_zero_value_output_no_report.2.2 (fun l => l) exZeroValuePSBT Network.testnet []
      exDummyReport ⟨{ value := 0, script_pubkey := exScriptB }, by decide, rfl⟩
